import Mathlib

/-!
The render handler of gosvgreplace (`main.go`).

A shallow embedding of `renderSvg` and `getSVG` together with the parts of the
Go standard library they call (`strings.ReplaceAll`, `regexp.MatchString` for
the validation pattern, `utf8.DecodeRuneInString`).

A Go `string` is a sequence of bytes; it is embedded as a list of naturals,
each byte being a natural below 256.  Runes are naturals (code points).
-/

namespace GoSvgReplace

/-- A Go string: its bytes in order. -/
abbrev GoString := List Nat

/-! ## unicode/utf8 -/

/-- The rune `utf8.RuneError` (U+FFFD). -/
def RuneError : Nat := 0xFFFD

/-- The table `utf8.first`: information about the first byte of an encoding.
`0xF0` marks ASCII, `0xF1` an illegal lead byte; otherwise the low three bits
give the size and the high four bits index `acceptRanges`. -/
def first (b : Nat) : Nat :=
  if b < 0x80 then 0xF0
  else if b < 0xC2 then 0xF1
  else if b < 0xE0 then 0x02
  else if b = 0xE0 then 0x13
  else if b < 0xED then 0x03
  else if b = 0xED then 0x23
  else if b < 0xF0 then 0x03
  else if b = 0xF0 then 0x34
  else if b < 0xF4 then 0x04
  else if b = 0xF4 then 0x44
  else 0xF1

/-- The table `utf8.acceptRanges`: lowest and highest value admitted for
the second byte of an encoding. -/
def acceptRanges (i : Nat) : Nat × Nat :=
  match i with
  | 0 => (0x80, 0xBF)
  | 1 => (0xA0, 0xBF)
  | 2 => (0x80, 0x9F)
  | 3 => (0x90, 0xBF)
  | 4 => (0x80, 0x8F)
  | _ => (0, 0)

/-- The function `utf8.DecodeRuneInString`: the first rune of `s` and its width
in bytes; `(RuneError, 0)` for the empty string and `(RuneError, 1)` for an
invalid encoding.  The masks and shifts of the Go code are written with
`%` and `*`: `b & 0x3F` is `b % 64`, `x << 6` is `x * 64`, and the or-ed parts
have no bit in common. -/
def DecodeRuneInString (s : GoString) : Nat × Nat :=
  match s with
  | [] => (RuneError, 0)
  | s0 :: t =>
    let x := first s0
    if 0xF0 ≤ x then
      (if x = 0xF0 then s0 else RuneError, 1)
    else
      let sz := x % 8
      let accept := acceptRanges (x / 16)
      if s.length < sz then (RuneError, 1)
      else
        match t with
        | [] => (RuneError, 1)
        | s1 :: t1 =>
          if s1 < accept.1 ∨ accept.2 < s1 then (RuneError, 1)
          else if sz ≤ 2 then ((s0 % 32) * 64 + s1 % 64, 2)
          else
            match t1 with
            | [] => (RuneError, 1)
            | s2 :: t2 =>
              if s2 < 0x80 ∨ 0xBF < s2 then (RuneError, 1)
              else if sz ≤ 3 then ((s0 % 16) * 4096 + (s1 % 64) * 64 + s2 % 64, 3)
              else
                match t2 with
                | [] => (RuneError, 1)
                | s3 :: _ =>
                  if s3 < 0x80 ∨ 0xBF < s3 then (RuneError, 1)
                  else ((s0 % 8) * 262144 + (s1 % 64) * 4096 + (s2 % 64) * 64 + s3 % 64, 4)

/-- The decoding loop shared by the readers of a string: decode a rune, advance
by its width, until the string is used up.  `fuel` bounds the number of runes. -/
def runesLoop : Nat → GoString → List Nat
  | 0, _ => []
  | _, [] => []
  | fuel + 1, s0 :: t =>
    let d := DecodeRuneInString (s0 :: t)
    d.1 :: runesLoop fuel ((s0 :: t).drop d.2)

/-- The runes of a string, as `regexp` and `range` read them: every rune has a
width of at least one byte, so the length of the string is fuel enough. -/
def runes (s : GoString) : List Nat := runesLoop s.length s

/-- The function `utf8.RuneCountInString`: it walks the string with the widths
`DecodeRuneInString` computes and counts the steps. -/
def RuneCountInString (s : GoString) : Nat := (runes s).length

/-- The function `utf8.AppendRune` on an empty buffer: the UTF-8 encoding of a
rune, `RuneError` being encoded for surrogates and values above `MaxRune`. -/
def EncodeRune (r : Nat) : GoString :=
  if r ≤ 0x7F then [r]
  else if r ≤ 0x7FF then [0xC0 + r / 64, 0x80 + r % 64]
  else
    let r := if 0x10FFFF < r ∨ (0xD800 ≤ r ∧ r ≤ 0xDFFF) then RuneError else r
    if r ≤ 0xFFFF then [0xE0 + r / 4096, 0x80 + (r / 64) % 64, 0x80 + r % 64]
    else [0xF0 + r / 262144, 0x80 + (r / 4096) % 64, 0x80 + (r / 64) % 64, 0x80 + r % 64]

/-- The bytes of a string literal of the Go source, which is UTF-8 text. -/
def utf8Bytes (s : String) : GoString := s.toList.flatMap (fun c => EncodeRune c.toNat)

/-! ## regexp -/

/-- The part of `regexp/syntax` the validation pattern uses. -/
inductive Regexp where
  | beginText : Regexp
  | endText : Regexp
  | charClass : List (Nat × Nat) → Regexp
  | star : Regexp → Regexp
  | concat : Regexp → Regexp → Regexp

/-- Membership of a rune in a character class given by its ranges. -/
def inClass (ranges : List (Nat × Nat)) (r : Nat) : Bool :=
  ranges.any (fun lohi => decide (lohi.1 ≤ r) && decide (r ≤ lohi.2))

/-- A position of the matcher in the input: whether it is the beginning of the
text, and the runes still to be read. -/
abbrev Pos := Bool × List Nat

/-- Closure of a set of positions under repeated application of `f`: the
positions reached after 0, 1, ... , `fuel` rounds. -/
def starIter (f : Pos → List Pos) : Nat → List Pos → List Pos
  | 0, front => front
  | fuel + 1, front => front ++ starIter f fuel (front.flatMap f)

/-- The positions at which a match of `re` that starts at `p` can end. -/
def matchEnds : Regexp → Pos → List Pos
  | .beginText, p => if p.1 then [p] else []
  | .endText, p => if p.2.isEmpty then [p] else []
  | .charClass ranges, p =>
    match p.2 with
    | [] => []
    | r :: t => if inClass ranges r then [(false, t)] else []
  | .star re, p => starIter (matchEnds re) (p.2.length + 1) [p]
  | .concat a b, p => (matchEnds a p).flatMap (matchEnds b)

/-- Unanchored search: is there a match of `re` starting at `p` or later. -/
def searchFrom (re : Regexp) : Bool → List Nat → Bool
  | atStart, [] => !(matchEnds re (atStart, [])).isEmpty
  | atStart, r :: t => !(matchEnds re (atStart, r :: t)).isEmpty || searchFrom re false t

/-- The method `(*Regexp).MatchString`: whether the string contains a match. -/
def MatchString (re : Regexp) (s : GoString) : Bool := searchFrom re true (runes s)

/-! ## strings -/

/-- The function `strings.Index`: the index of the first instance of `substr`
in `s`, `none` standing for `-1`. -/
def Index (s substr : GoString) : Option Nat :=
  if substr.isPrefixOf s then some 0
  else
    match s with
    | [] => none
    | _ :: t => (Index t substr).map (· + 1)

/-- The loop of `strings.Count` for a separator of two bytes or more: find the
next instance, count it, continue behind it. -/
def countLoop (substr : GoString) : Nat → GoString → Nat
  | 0, _ => 0
  | fuel + 1, s =>
    match Index s substr with
    | none => 0
    | some i => countLoop substr fuel (s.drop (i + substr.length)) + 1

/-- The function `strings.Count`: the number of non-overlapping instances of
`substr` in `s`; one more than the number of runes for the empty `substr`. -/
def Count (s substr : GoString) : Nat :=
  match substr with
  | [] => RuneCountInString s + 1
  | [b] => s.count b
  | _ => countLoop substr s.length s

/-- The loop of `strings.Replace`, on the part of the string behind `start`:
`n` replacements are still to be made, `isFirst` holds in the first round
(`i == 0`).  `Replace` runs the loop `Count(s, old)` times, so `Index` finds an
instance in every round; were there none, the rest of the string is returned. -/
def replaceLoop (old new : GoString) : Nat → Bool → GoString → GoString
  | 0, _, rest => rest
  | n + 1, isFirst, rest =>
    match (if old.length = 0 then
            some (if isFirst then 0 else (DecodeRuneInString rest).2)
          else Index rest old) with
    | none => rest
    | some j => rest.take j ++ new ++ replaceLoop old new n false (rest.drop (j + old.length))

/-- The function `strings.Replace`. -/
def Replace (s old new : GoString) (n : Int) : GoString :=
  if old = new ∨ n = 0 then s
  else
    let m := Count s old
    if m = 0 then s
    else
      let n := if n < 0 ∨ (m : Int) < n then m else n.toNat
      replaceLoop old new n true s

/-- The function `strings.ReplaceAll`. -/
def ReplaceAll (s old new : GoString) : GoString := Replace s old new (-1)

/-! ## main.go -/

/-- The variable `responseContentType`. -/
def responseContentType : GoString := utf8Bytes "text/html; charset=utf-8"

/-- The variable `acceptedContentType`. -/
def acceptedContentType : GoString := utf8Bytes "image/svg+xml"

/-- The variable `validateInput`: the compiled form of `validationRegex`,
the pattern `^[A-Za-z0-9°%\.,\-_\#]*$`.  The class holds the three ranges and
the seven single runes in the order of the pattern. -/
def validateInput : Regexp :=
  .concat .beginText
    (.concat
      (.star (.charClass
        [(0x41, 0x5A), (0x61, 0x7A), (0x30, 0x39), (0xB0, 0xB0), (0x25, 0x25),
         (0x2E, 0x2E), (0x2C, 0x2C), (0x2D, 0x2D), (0x5F, 0x5F), (0x23, 0x23)]))
      .endText)

/-- The variable `invalidBody`. -/
def invalidBody : GoString := utf8Bytes "Invalid request body"

/-- The variable `errorRetrievingSource`. -/
def errorRetrievingSource : GoString := utf8Bytes "Error retrieving source"

/-- The constant `http.StatusNotFound`. -/
def StatusNotFound : Nat := 404

/-- The constant `http.StatusOK`. -/
def StatusOK : Nat := 200

/-- The type `Payload`.  `Replace` is a Go map; it is given by its entries in
the order in which the `range` loop of `renderSvg` visits them, an order Go
leaves open. -/
structure Payload where
  Source : GoString
  RemoveHyphens : Bool
  Replace : List (GoString × GoString)

/-- A Go `error` value, known by its message. -/
structure GoError where
  msg : GoString
deriving DecidableEq

/-- What `getSVG` reads of the response of `http.Get`: the value of
`resp.Header.Get("Content-type")`, empty when the header is absent, and the
outcome of `ioutil.ReadAll(resp.Body)`. -/
structure HttpResponse where
  contentType : GoString
  body : Except GoError GoString

/-- The network as the handler meets it: the outcome of `http.Get` for every
URL, and the URLs requested so far. -/
structure World where
  get : GoString → Except GoError HttpResponse
  fetched : List GoString

/-- The call `http.Get(url)`: the outcome, and the world with the request
recorded. -/
def httpGet (w : World) (url : GoString) : Except GoError HttpResponse × World :=
  (w.get url, { w with fetched := w.fetched ++ [url] })

/-- The function `getSVG`, returning the pair `(string, error)` of the Go code
(`none` for a nil error) and the world after the request. -/
def getSVG (w : World) (url : GoString) (removeHyphens : Bool) :
    (GoString × Option GoError) × World :=
  match httpGet w url with
  | (.error err, w1) => (([], some err), w1)
  | (.ok resp, w1) =>
    let ctype := resp.contentType
    if ctype ≠ acceptedContentType then
      (([], some ⟨utf8Bytes "Invalid Content-type"⟩), w1)
    else
      match resp.body with
      | .error err => (([], some err), w1)
      | .ok body =>
        let svgstring := body
        let svgstring :=
          if removeHyphens then ReplaceAll svgstring (utf8Bytes "\x27") [] else svgstring
        ((svgstring, none), w1)

/-- What the handler reads of the request: the outcome of
`ioutil.ReadAll(c.Request.Body)`. -/
structure Request where
  body : Except GoError GoString

/-- The response `c.Data` writes: status code, content type, body. -/
structure Response where
  status : Nat
  contentType : GoString
  body : GoString
deriving DecidableEq

/-- The loop of `renderSvg` over the entries of `pload.Replace`. -/
def applyReplace (entries : List (GoString × GoString)) (svgstring : GoString) : GoString :=
  entries.foldl
    (fun svgstring kv =>
      if MatchString validateInput kv.2 then ReplaceAll svgstring kv.1 kv.2 else svgstring)
    svgstring

/-- The handler `renderSvg`.  `unmarshal` stands for `json.Unmarshal` into a
`Payload`.  The result is the response written and the world afterwards. -/
def renderSvg (unmarshal : GoString → Except GoError Payload) (w : World) (req : Request) :
    Response × World :=
  match req.body with
  | .error _ => (⟨StatusNotFound, responseContentType, invalidBody⟩, w)
  | .ok jsonData =>
    match unmarshal jsonData with
    | .error _ => (⟨StatusNotFound, responseContentType, invalidBody⟩, w)
    | .ok pload =>
      match getSVG w pload.Source pload.RemoveHyphens with
      | ((_, some _), w1) => (⟨StatusNotFound, responseContentType, errorRetrievingSource⟩, w1)
      | ((svgstring, none), w1) =>
        (⟨StatusOK, responseContentType, applyReplace pload.Replace svgstring⟩, w1)

/-! ## The words of the specification -/

/-- An ASCII letter, `A` to `Z` or `a` to `z`. -/
def isAsciiLetter (r : Nat) : Prop := (0x41 ≤ r ∧ r ≤ 0x5A) ∨ (0x61 ≤ r ∧ r ≤ 0x7A)

instance : DecidablePred isAsciiLetter := fun r => by
  unfold isAsciiLetter
  infer_instance

/-- A digit, `0` to `9`. -/
def isAsciiDigit (r : Nat) : Prop := 0x30 ≤ r ∧ r ≤ 0x39

instance : DecidablePred isAsciiDigit := fun r => by
  unfold isAsciiDigit
  infer_instance

/-- The symbols the specification lists for the whitelist: degree sign,
percent, period, comma, hyphen, underscore, hash. -/
def listedSymbols : List Nat := [0xB0, 0x25, 0x2E, 0x2C, 0x2D, 0x5F, 0x23]

/-- The apostrophe, as a byte and as a rune. -/
def apostrophe : Nat := 0x27

/-- Scan of a string for the instances of a non-empty separator `k`, from the
left: `skip` bytes of an instance just found are still to be passed over, `cur`
holds the bytes of the piece being read, last byte first. -/
def splitScan (k : GoString) : Nat → GoString → GoString → List GoString
  | _, cur, [] => [cur.reverse]
  | skip + 1, cur, _ :: t => splitScan k skip cur t
  | 0, cur, c :: t =>
    if k.isPrefixOf (c :: t) then cur.reverse :: splitScan k (k.length - 1) [] t
    else splitScan k 0 (c :: cur) t

/-- The pieces of `s` split at `k`: what stands between the leftmost,
non-overlapping instances of `k`, before the first and behind the last. -/
def pieces (k s : GoString) : List GoString := splitScan k 0 [] s

/-! ## Concrete inputs -/

/-- A network in which every URL answers with the content type `ctype` and the
body `d`, nothing requested yet. -/
def serving (ctype d : GoString) : World := ⟨fun _ => .ok ⟨ctype, .ok d⟩, []⟩

/-- A network in which every request fails. -/
def unreachable : World := ⟨fun _ => .error ⟨utf8Bytes "no such host"⟩, []⟩

/-- A network in which every URL answers with `image/svg+xml` and a body that
cannot be read to its end. -/
def truncating : World :=
  ⟨fun _ => .ok ⟨acceptedContentType, .error ⟨utf8Bytes "unexpected EOF"⟩⟩, []⟩

/-- A request body that parses to the payload `p`, whatever its bytes. -/
def yielding (p : Payload) : GoString → Except GoError Payload := fun _ => .ok p

/-- A request body that does not parse. -/
def rejecting : GoString → Except GoError Payload :=
  fun _ => .error ⟨utf8Bytes "unexpected end of JSON input"⟩

/-- The document of the end-to-end scenarios. -/
def helloDoc : GoString := utf8Bytes "<svg>\x27Hello\x27 #NAME#</svg>"

/-! ## Theorems -/

/-! ### unicode/utf8 -/

theorem first_cases (b : Nat) :
    (b < 0x80 ∧ first b = 0xF0) ∨ (first b = 0xF1) ∨
    (0xC2 ≤ b ∧ b ≤ 0xDF ∧ first b = 0x02) ∨
    (b = 0xE0 ∧ first b = 0x13) ∨
    (0xE1 ≤ b ∧ b ≤ 0xEF ∧ (first b = 0x03 ∨ first b = 0x23)) ∨
    (b = 0xF0 ∧ first b = 0x34) ∨
    (0xF1 ≤ b ∧ b ≤ 0xF4 ∧ (first b = 0x04 ∨ first b = 0x44)) := by
  unfold first
  split_ifs <;> simp <;> omega

theorem decode_cases (s0 : Nat) (t : GoString) :
    (s0 < 0x80 ∧ DecodeRuneInString (s0 :: t) = (s0, 1)) ∨
    DecodeRuneInString (s0 :: t) = (RuneError, 1) ∨
    (∃ s1 t1, t = s1 :: t1 ∧ 0xC2 ≤ s0 ∧ s0 ≤ 0xDF ∧ 0x80 ≤ s1 ∧ s1 ≤ 0xBF ∧
      DecodeRuneInString (s0 :: t) = ((s0 % 32) * 64 + s1 % 64, 2)) ∨
    (0x800 ≤ (DecodeRuneInString (s0 :: t)).1 ∧
      ((DecodeRuneInString (s0 :: t)).2 = 3 ∨ (DecodeRuneInString (s0 :: t)).2 = 4) ∧
      (DecodeRuneInString (s0 :: t)).2 ≤ (s0 :: t).length) := by
  rcases first_cases s0 with ⟨h0, hf⟩ | hf | ⟨h1, h2, hf⟩ | ⟨h1, hf⟩ | ⟨h1, h2, hf⟩ |
    ⟨h1, hf⟩ | ⟨h1, h2, hf⟩
  · left
    simp [DecodeRuneInString, hf, h0]
  · right; left
    simp [DecodeRuneInString, hf]
  · rcases t with _ | ⟨s1, t1⟩
    · right; left
      simp [DecodeRuneInString, hf, acceptRanges]
    · by_cases hs1 : s1 < 0x80 ∨ 0xBF < s1
      · right; left
        simp [DecodeRuneInString, hf, acceptRanges, hs1]
      · right; right; left
        refine ⟨s1, t1, rfl, h1, h2, by omega, by omega, ?_⟩
        simp [DecodeRuneInString, hf, acceptRanges, hs1]
  · rcases t with _ | ⟨s1, _ | ⟨s2, _ | ⟨s3, t3⟩⟩⟩ <;>
      simp only [DecodeRuneInString, acceptRanges, hf] <;> norm_num <;>
      split_ifs <;> simp [RuneError] <;> omega
  · rcases hf with hf | hf <;>
      rcases t with _ | ⟨s1, _ | ⟨s2, _ | ⟨s3, t3⟩⟩⟩ <;>
      simp only [DecodeRuneInString, acceptRanges, hf] <;> norm_num <;>
      split_ifs <;> simp [RuneError] <;> omega
  · rcases t with _ | ⟨s1, _ | ⟨s2, _ | ⟨s3, t3⟩⟩⟩ <;>
      simp only [DecodeRuneInString, acceptRanges, hf] <;> norm_num <;>
      split_ifs <;> simp [RuneError] <;> omega
  · rcases hf with hf | hf <;>
      rcases t with _ | ⟨s1, _ | ⟨s2, _ | ⟨s3, t3⟩⟩⟩ <;>
      simp only [DecodeRuneInString, acceptRanges, hf] <;> norm_num <;>
      split_ifs <;> simp [RuneError] <;> omega

theorem decode_width (s0 : Nat) (t : GoString) :
    1 ≤ (DecodeRuneInString (s0 :: t)).2 ∧ (DecodeRuneInString (s0 :: t)).2 ≤ (s0 :: t).length := by
  rcases decode_cases s0 t with ⟨_, h⟩ | h | ⟨s1, t1, rfl, _, _, _, _, h⟩ | ⟨_, h, h2⟩
  · rw [h]; simp
  · rw [h]; simp
  · rw [h]; simp
  · exact ⟨by omega, h2⟩

theorem runesLoop_fuel (f g : Nat) (s : GoString) (hf : s.length ≤ f) (hg : s.length ≤ g) :
    runesLoop f s = runesLoop g s := by
  induction f generalizing g s with
  | zero =>
    have : s = [] := List.length_eq_zero.1 (Nat.le_zero.1 hf)
    subst this
    cases g <;> rfl
  | succ f ih =>
    cases s with
    | nil => cases g <;> rfl
    | cons s0 t =>
      cases g with
      | zero => simp at hg
      | succ g =>
        have hw := decode_width s0 t
        simp only [runesLoop]
        rw [ih g _ (by simp only [List.length_drop, List.length_cons] at *; omega)
          (by simp only [List.length_drop, List.length_cons] at *; omega)]

theorem first_ascii (b : Nat) (h : b < 0x80) : first b = 0xF0 := by
  unfold first
  rw [if_pos h]

theorem first_two (b : Nat) (h1 : 0xC2 ≤ b) (h2 : b ≤ 0xDF) : first b = 0x02 := by
  unfold first
  rw [if_neg (by omega), if_neg (by omega), if_pos (by omega)]

theorem first_three (b : Nat) (h1 : 0xE1 ≤ b) (h2 : b ≤ 0xEF) (h3 : b ≠ 0xED) :
    first b = 0x03 := by
  unfold first
  rw [if_neg (by omega), if_neg (by omega), if_neg (by omega), if_neg (by omega)]
  by_cases h : b < 0xED
  · rw [if_pos h]
  · rw [if_neg h, if_neg h3, if_pos (by omega)]

theorem first_four (b : Nat) (h1 : 0xF1 ≤ b) (h2 : b ≤ 0xF3) : first b = 0x04 := by
  unfold first
  rw [if_neg (by omega), if_neg (by omega), if_neg (by omega), if_neg (by omega),
    if_neg (by omega), if_neg (by omega), if_neg (by omega), if_neg (by omega),
    if_pos (by omega)]

theorem decode_two (s0 s1 : Nat) (t : GoString) (h0 : 0xC2 ≤ s0) (h0b : s0 ≤ 0xDF)
    (h1 : 0x80 ≤ s1) (h1b : s1 ≤ 0xBF) :
    DecodeRuneInString (s0 :: s1 :: t) = ((s0 % 32) * 64 + s1 % 64, 2) := by
  simp [DecodeRuneInString, first_two s0 h0 h0b, acceptRanges, Nat.not_lt.2 h1,
    Nat.not_lt.2 h1b]

theorem decode_three (s0 s1 s2 lo hi : Nat) (t : GoString)
    (hx : (first s0 = 0x13 ∧ lo = 0xA0 ∧ hi = 0xBF) ∨ (first s0 = 0x03 ∧ lo = 0x80 ∧ hi = 0xBF) ∨
      (first s0 = 0x23 ∧ lo = 0x80 ∧ hi = 0x9F))
    (h1 : lo ≤ s1) (h1b : s1 ≤ hi) (h2 : 0x80 ≤ s2) (h2b : s2 ≤ 0xBF) :
    DecodeRuneInString (s0 :: s1 :: s2 :: t) =
      ((s0 % 16) * 4096 + (s1 % 64) * 64 + s2 % 64, 3) := by
  rcases hx with ⟨hf, rfl, rfl⟩ | ⟨hf, rfl, rfl⟩ | ⟨hf, rfl, rfl⟩ <;>
    simp [DecodeRuneInString, hf, acceptRanges, Nat.not_lt.2 h1, Nat.not_lt.2 h1b,
      Nat.not_lt.2 h2, Nat.not_lt.2 h2b]

theorem decode_four (s0 s1 s2 s3 lo hi : Nat) (t : GoString)
    (hx : (first s0 = 0x34 ∧ lo = 0x90 ∧ hi = 0xBF) ∨ (first s0 = 0x04 ∧ lo = 0x80 ∧ hi = 0xBF) ∨
      (first s0 = 0x44 ∧ lo = 0x80 ∧ hi = 0x8F))
    (h1 : lo ≤ s1) (h1b : s1 ≤ hi) (h2 : 0x80 ≤ s2) (h2b : s2 ≤ 0xBF)
    (h3 : 0x80 ≤ s3) (h3b : s3 ≤ 0xBF) :
    DecodeRuneInString (s0 :: s1 :: s2 :: s3 :: t) =
      ((s0 % 8) * 262144 + (s1 % 64) * 4096 + (s2 % 64) * 64 + s3 % 64, 4) := by
  rcases hx with ⟨hf, rfl, rfl⟩ | ⟨hf, rfl, rfl⟩ | ⟨hf, rfl, rfl⟩ <;>
    simp [DecodeRuneInString, hf, acceptRanges, Nat.not_lt.2 h1, Nat.not_lt.2 h1b,
      Nat.not_lt.2 h2, Nat.not_lt.2 h2b, Nat.not_lt.2 h3, Nat.not_lt.2 h3b]

/-- Decoding undoes encoding: in front of any string, the encoding of a
Unicode scalar value decodes to that value, with the width of the encoding. -/
theorem decode_encode (r : Nat) (hr : r < 0xD800 ∨ (0xDFFF < r ∧ r < 0x110000)) (t : GoString) :
    DecodeRuneInString (EncodeRune r ++ t) = (r, (EncodeRune r).length) := by
  unfold EncodeRune
  by_cases h1 : r ≤ 0x7F
  · simp [h1, DecodeRuneInString, first_ascii r (by omega)]
  rw [if_neg h1]
  by_cases h2 : r ≤ 0x7FF
  · rw [if_pos h2]
    simp only [List.cons_append, List.nil_append, List.length_cons, List.length_nil]
    rw [decode_two _ _ _ (by omega) (by omega) (by omega) (by omega)]
    simp only [Prod.mk.injEq, and_true]
    omega
  rw [if_neg h2]
  have h3 : ¬ (0x10FFFF < r ∨ (0xD800 ≤ r ∧ r ≤ 0xDFFF)) := by omega
  simp only [h3, if_false]
  by_cases h4 : r ≤ 0xFFFF
  · rw [if_pos h4]
    simp only [List.cons_append, List.nil_append, List.length_cons, List.length_nil]
    have hc : (first (0xE0 + r / 4096) = 0x13 ∧ r / 4096 = 0) ∨
        (first (0xE0 + r / 4096) = 0x03 ∧ r / 4096 ≠ 0 ∧ r / 4096 ≠ 13) ∨
        (first (0xE0 + r / 4096) = 0x23 ∧ r / 4096 = 13) := by
      by_cases ha : r / 4096 = 0
      · left; rw [ha]; exact ⟨rfl, rfl⟩
      by_cases hb : r / 4096 = 13
      · right; right; rw [hb]; exact ⟨rfl, rfl⟩
      · right; left
        exact ⟨first_three _ (by omega) (by omega) (by omega), ha, hb⟩
    rcases hc with ⟨hf, hq⟩ | ⟨hf, hq, hq2⟩ | ⟨hf, hq⟩
    · rw [decode_three _ _ _ 0xA0 0xBF _ (Or.inl ⟨hf, rfl, rfl⟩) (by omega) (by omega)
        (by omega) (by omega)]
      simp only [Prod.mk.injEq, and_true]
      omega
    · rw [decode_three _ _ _ 0x80 0xBF _ (Or.inr (Or.inl ⟨hf, rfl, rfl⟩)) (by omega) (by omega)
        (by omega) (by omega)]
      simp only [Prod.mk.injEq, and_true]
      omega
    · rw [decode_three _ _ _ 0x80 0x9F _ (Or.inr (Or.inr ⟨hf, rfl, rfl⟩)) (by omega) (by omega)
        (by omega) (by omega)]
      simp only [Prod.mk.injEq, and_true]
      omega
  · rw [if_neg h4]
    simp only [List.cons_append, List.nil_append, List.length_cons, List.length_nil]
    have hc : (first (0xF0 + r / 262144) = 0x34 ∧ r / 262144 = 0) ∨
        (first (0xF0 + r / 262144) = 0x04 ∧ r / 262144 ≠ 0 ∧ r / 262144 ≠ 4) ∨
        (first (0xF0 + r / 262144) = 0x44 ∧ r / 262144 = 4) := by
      by_cases ha : r / 262144 = 0
      · left; rw [ha]; exact ⟨rfl, rfl⟩
      by_cases hb : r / 262144 = 4
      · right; right; rw [hb]; exact ⟨rfl, rfl⟩
      · right; left
        exact ⟨first_four _ (by omega) (by omega), ha, hb⟩
    rcases hc with ⟨hf, hq⟩ | ⟨hf, hq, hq2⟩ | ⟨hf, hq⟩
    · rw [decode_four _ _ _ _ 0x90 0xBF _ (Or.inl ⟨hf, rfl, rfl⟩) (by omega) (by omega)
        (by omega) (by omega) (by omega) (by omega)]
      simp only [Prod.mk.injEq, and_true]
      omega
    · rw [decode_four _ _ _ _ 0x80 0xBF _ (Or.inr (Or.inl ⟨hf, rfl, rfl⟩)) (by omega) (by omega)
        (by omega) (by omega) (by omega) (by omega)]
      simp only [Prod.mk.injEq, and_true]
      omega
    · rw [decode_four _ _ _ _ 0x80 0x8F _ (Or.inr (Or.inr ⟨hf, rfl, rfl⟩)) (by omega) (by omega)
        (by omega) (by omega) (by omega) (by omega)]
      simp only [Prod.mk.injEq, and_true]
      omega

theorem EncodeRune_length_pos (r : Nat) : 0 < (EncodeRune r).length := by
  unfold EncodeRune
  simp only []
  split_ifs <;> simp

theorem runes_encode_append (r : Nat) (hr : r < 0xD800 ∨ (0xDFFF < r ∧ r < 0x110000))
    (t : GoString) : runes (EncodeRune r ++ t) = r :: runes t := by
  have hd := decode_encode r hr t
  have hpos := EncodeRune_length_pos r
  unfold runes
  cases he : EncodeRune r with
  | nil => rw [he] at hpos; simp at hpos
  | cons s0 e =>
    rw [he] at hd
    rw [List.cons_append] at hd ⊢
    rw [List.length_cons, runesLoop, hd]
    show r :: runesLoop _ (List.drop ((s0 :: e).length) ((s0 :: e) ++ t)) = _
    rw [List.drop_left]
    congr 1
    exact runesLoop_fuel _ _ t (by simp) (Nat.le_refl _)

/-- The runes of a UTF-8 text are its characters. -/
theorem runes_utf8Bytes (s : String) : runes (utf8Bytes s) = s.toList.map Char.toNat := by
  unfold utf8Bytes
  induction s.toList with
  | nil => rfl
  | cons c cs ih =>
    have hc : c.toNat < 0xD800 ∨ (0xDFFF < c.toNat ∧ c.toNat < 0x110000) := c.valid
    rw [List.flatMap_cons, runes_encode_append c.toNat hc, ih]
    rfl

/-- A rune that does not start with an ASCII byte is not an ASCII rune, and
none of the bytes it takes up is an ASCII byte. -/
theorem decode_non_ascii (s0 : Nat) (t : GoString) (h : 0x80 ≤ s0) :
    0x80 ≤ (DecodeRuneInString (s0 :: t)).1 ∧
      ∀ b ∈ (s0 :: t).take (DecodeRuneInString (s0 :: t)).2, 0x80 ≤ b := by
  rcases first_cases s0 with ⟨h0, hf⟩ | hf | ⟨h1, h2, hf⟩ | ⟨h1, hf⟩ | ⟨h1, h2, hf⟩ |
    ⟨h1, hf⟩ | ⟨h1, h2, hf⟩
  · omega
  · simp [DecodeRuneInString, hf, RuneError, h]
  · rcases t with _ | ⟨s1, t1⟩
    · simp [DecodeRuneInString, hf, acceptRanges, RuneError, h]
    · by_cases hs1 : s1 < 0x80 ∨ 0xBF < s1
      · simp [DecodeRuneInString, hf, acceptRanges, hs1, RuneError, h]
      · rw [decode_two s0 s1 t1 h1 h2 (by omega) (by omega)]
        simp only [List.take_succ_cons, List.take_zero, List.mem_cons, List.not_mem_nil,
          or_false, forall_eq_or_imp, forall_eq]
        omega
  · rcases t with _ | ⟨s1, _ | ⟨s2, _ | ⟨s3, t3⟩⟩⟩ <;>
      simp only [DecodeRuneInString, acceptRanges, hf] <;> norm_num <;>
      (try split_ifs) <;> (try simp [RuneError]) <;> (try omega)
  · rcases hf with hf | hf <;>
      rcases t with _ | ⟨s1, _ | ⟨s2, _ | ⟨s3, t3⟩⟩⟩ <;>
      simp only [DecodeRuneInString, acceptRanges, hf] <;> norm_num <;>
      (try split_ifs) <;> (try simp [RuneError]) <;> (try omega)
  · rcases t with _ | ⟨s1, _ | ⟨s2, _ | ⟨s3, t3⟩⟩⟩ <;>
      simp only [DecodeRuneInString, acceptRanges, hf] <;> norm_num <;>
      (try split_ifs) <;> (try simp [RuneError]) <;> (try omega)
  · rcases hf with hf | hf <;>
      rcases t with _ | ⟨s1, _ | ⟨s2, _ | ⟨s3, t3⟩⟩⟩ <;>
      simp only [DecodeRuneInString, acceptRanges, hf] <;> norm_num <;>
      (try split_ifs) <;> (try simp [RuneError]) <;> (try omega)

theorem decode_ascii (s0 : Nat) (t : GoString) (h : s0 < 0x80) :
    DecodeRuneInString (s0 :: t) = (s0, 1) := by
  simp [DecodeRuneInString, first_ascii s0 h]

/-- An ASCII character occurs as a rune of a string as often as its byte occurs
in the string, whether or not the string is valid UTF-8. -/
theorem runesLoop_count_ascii (c : Nat) (hc : c < 0x80) (f : Nat) (s : GoString)
    (hf : s.length ≤ f) : (runesLoop f s).count c = s.count c := by
  induction f generalizing s with
  | zero =>
    have : s = [] := List.length_eq_zero.1 (Nat.le_zero.1 hf)
    subst this
    rfl
  | succ f ih =>
    cases s with
    | nil => rfl
    | cons s0 t =>
      simp only [runesLoop]
      by_cases h0 : s0 < 0x80
      · rw [decode_ascii s0 t h0]
        simp only [List.drop_succ_cons, List.drop_zero, List.count_cons]
        rw [ih t (by simpa using hf)]
      · have hw := decode_width s0 t
        obtain ⟨hr, hb⟩ := decode_non_ascii s0 t (by omega)
        have h1 : (List.take (DecodeRuneInString (s0 :: t)).2 (s0 :: t)).count c = 0 := by
          rw [List.count_eq_zero]
          intro hmem
          have := hb c hmem
          omega
        have h2 : (s0 :: t).count c =
            (List.take (DecodeRuneInString (s0 :: t)).2 (s0 :: t)).count c +
            (List.drop (DecodeRuneInString (s0 :: t)).2 (s0 :: t)).count c := by
          rw [← List.count_append, List.take_append_drop]
        rw [h2, h1, Nat.zero_add, List.count_cons_of_ne (by omega),
          ih _ (by rw [List.length_drop]; simp only [List.length_cons] at hf hw ⊢; omega)]

theorem runes_count_ascii (c : Nat) (hc : c < 0x80) (s : GoString) :
    (runes s).count c = s.count c :=
  runesLoop_count_ascii c hc s.length s (Nat.le_refl _)

theorem mem_runes_ascii (c : Nat) (hc : c < 0x80) (s : GoString) : c ∈ runes s ↔ c ∈ s := by
  rw [← List.count_pos_iff, ← List.count_pos_iff, runes_count_ascii c hc s]

/-! ### regexp -/

theorem starIter_nil (f : Pos → List Pos) (n : Nat) : starIter f n [] = [] := by
  induction n with
  | zero => rfl
  | succ n ih => simp [starIter, ih]

theorem star_class_reaches_end (C : List (Nat × Nat)) (rs : List Nat) (b : Bool) :
    (∃ p ∈ starIter (matchEnds (.charClass C)) (rs.length + 1) [(b, rs)], p.2 = []) ↔
      ∀ r ∈ rs, inClass C r = true := by
  induction rs generalizing b with
  | nil => simp [starIter]
  | cons r t ih =>
    by_cases hr : inClass C r = true
    · have h := ih false
      simp only [List.length_cons, starIter, List.flatMap_cons, List.flatMap_nil, matchEnds, hr,
        if_true, List.append_nil, List.singleton_append, List.mem_cons] at h ⊢
      constructor
      · rintro ⟨p, hp | hp, hp2⟩
        · subst hp; simp at hp2
        · intro x hx
          rcases hx with rfl | hx
          · exact hr
          · exact h.1 ⟨p, hp, hp2⟩ x hx
      · intro hall
        obtain ⟨p, hp, hp2⟩ := h.2 (fun x hx => hall x (Or.inr hx))
        exact ⟨p, Or.inr hp, hp2⟩
    · simp only [List.length_cons, starIter, List.flatMap_cons, List.flatMap_nil, matchEnds, hr,
        List.append_nil, List.singleton_append, List.mem_cons, starIter_nil]
      simp [hr, starIter_nil]

theorem searchFrom_not_start (re : Regexp) (rs : List Nat) :
    searchFrom (.concat .beginText re) false rs = false := by
  induction rs with
  | nil => simp [searchFrom, matchEnds]
  | cons r t ih => simp [searchFrom, matchEnds, ih]

theorem matchEnds_anchored (re : Regexp) (rs : List Nat) :
    matchEnds (.concat .beginText (.concat re .endText)) (true, rs) =
      (matchEnds re (true, rs)).flatMap (fun p => if p.2.isEmpty then [p] else []) := by
  show ([(true, rs)].flatMap fun p => (matchEnds re p).flatMap (matchEnds .endText)) = _
  rw [List.flatMap_cons, List.flatMap_nil, List.append_nil]
  rfl

theorem search_anchored (C : List (Nat × Nat)) (rs : List Nat) :
    searchFrom (.concat .beginText (.concat (.star (.charClass C)) .endText)) true rs = true ↔
      ∀ r ∈ rs, inClass C r = true := by
  have key : (matchEnds (.concat .beginText (.concat (.star (.charClass C)) .endText))
      (true, rs)).isEmpty = false ↔ ∀ r ∈ rs, inClass C r = true := by
    rw [← star_class_reaches_end C rs true, matchEnds_anchored, Bool.eq_false_iff, Ne,
      List.isEmpty_iff, List.flatMap_eq_nil_iff]
    show (¬ ∀ x ∈ starIter (matchEnds (.charClass C)) (rs.length + 1) [(true, rs)], _) ↔ _
    constructor
    · intro h
      by_contra hne
      apply h
      intro x hx
      have hx2 : ¬ x.2 = [] := fun h2 => hne ⟨x, hx, h2⟩
      simp [hx2]
    · rintro ⟨p, hp, hp2⟩ h
      have := h p hp
      simp [hp2] at this
  cases rs with
  | nil => simpa [searchFrom] using key
  | cons r t =>
    rw [searchFrom, searchFrom_not_start, Bool.or_false]
    simpa using key

/-- The runes the validation pattern admits are the ASCII letters, the digits
and the seven listed symbols. -/
theorem inClass_validate (r : Nat) :
    inClass [(0x41, 0x5A), (0x61, 0x7A), (0x30, 0x39), (0xB0, 0xB0), (0x25, 0x25),
         (0x2E, 0x2E), (0x2C, 0x2C), (0x2D, 0x2D), (0x5F, 0x5F), (0x23, 0x23)] r = true ↔
      (isAsciiLetter r ∨ isAsciiDigit r ∨ r ∈ listedSymbols) := by
  simp only [inClass, isAsciiLetter, isAsciiDigit, listedSymbols, List.any_cons, List.any_nil,
    Bool.or_false, Bool.or_eq_true, Bool.and_eq_true, decide_eq_true_eq, List.mem_cons,
    List.mem_singleton, List.not_mem_nil, or_false]
  omega

theorem matchString_iff (v : GoString) :
    MatchString validateInput v = true ↔
      ∀ r ∈ runes v, (isAsciiLetter r ∨ isAsciiDigit r ∨ r ∈ listedSymbols) := by
  unfold MatchString validateInput
  rw [search_anchored]
  exact forall₂_congr (fun r _ => inClass_validate r)

/-! ### The bytes of an admitted value -/

/-- The bytes a string admitted by the whitelist can hold: the admitted ASCII
characters and the two bytes `0xC2 0xB0` of the degree sign. -/
theorem runesLoop_bytes (f : Nat) (s : GoString) (hf : s.length ≤ f)
    (h : ∀ r ∈ runesLoop f s, isAsciiLetter r ∨ isAsciiDigit r ∨ r ∈ listedSymbols) :
    ∀ b ∈ s, isAsciiLetter b ∨ isAsciiDigit b ∨ b ∈ listedSymbols ∨ b = 0xC2 := by
  induction f generalizing s with
  | zero =>
    have : s = [] := List.length_eq_zero.1 (Nat.le_zero.1 hf)
    subst this
    simp
  | succ f ih =>
    cases s with
    | nil => simp
    | cons s0 t =>
      simp only [runesLoop, List.mem_cons, forall_eq_or_imp] at h
      obtain ⟨h0, hrest⟩ := h
      rcases decode_cases s0 t with ⟨_, hd⟩ | hd | ⟨s1, t1, rfl, h1, h2, h3, h4, hd⟩ | ⟨hd, _, _⟩
      · rw [hd] at h0 hrest
        intro b hb
        rcases List.mem_cons.1 hb with rfl | hb
        · tauto
        · exact ih t (by simpa using hf) (by simpa using hrest) b hb
      · rw [hd] at h0
        simp [RuneError, isAsciiLetter, isAsciiDigit, listedSymbols] at h0
      · rw [hd] at h0 hrest
        have h5 : s0 = 0xC2 ∧ s1 = 0xB0 := by
          simp only [isAsciiLetter, isAsciiDigit, listedSymbols, List.mem_cons,
            List.mem_singleton, List.not_mem_nil, or_false] at h0
          omega
        obtain ⟨rfl, rfl⟩ := h5
        intro b hb
        rcases List.mem_cons.1 hb with rfl | hb
        · simp
        rcases List.mem_cons.1 hb with rfl | hb
        · simp [listedSymbols]
        · exact ih t1 (by simp only [List.length_cons] at hf; omega) (by simpa using hrest) b hb
      · simp only [isAsciiLetter, isAsciiDigit, listedSymbols, List.mem_cons,
            List.mem_singleton, List.not_mem_nil, or_false] at h0
        omega

theorem matchString_bytes (v : GoString) (h : MatchString validateInput v = true) :
    ∀ b ∈ v, isAsciiLetter b ∨ isAsciiDigit b ∨ b ∈ listedSymbols ∨ b = 0xC2 :=
  runesLoop_bytes v.length v (Nat.le_refl _) ((matchString_iff v).1 h)

/-- A value admitted by the whitelist holds none of the bytes `<`, `>`, double
quote, apostrophe, space and newline. -/
theorem matchString_not_mem (v : GoString) (h : MatchString validateInput v = true) (b : Nat)
    (hb : b ∈ [0x3C, 0x3E, 0x22, 0x27, 0x20, 0x0A]) : b ∉ v := by
  intro hv
  have := matchString_bytes v h b hv
  simp only [isAsciiLetter, isAsciiDigit, listedSymbols, List.mem_cons,
    List.mem_singleton, List.not_mem_nil, or_false] at this hb
  omega

/-! ### strings -/

theorem Index_nil (k : GoString) : Index [] k = if k.isPrefixOf [] then some 0 else none := by
  rw [Index]

theorem Index_cons (c : Nat) (t k : GoString) :
    Index (c :: t) k = if k.isPrefixOf (c :: t) then some 0 else (Index t k).map (· + 1) := by
  rw [Index]

theorem Index_nil_of_ne (k : GoString) (hk : k ≠ []) : Index [] k = none := by
  cases k with
  | nil => exact absurd rfl hk
  | cons a k => simp [Index_nil, List.isPrefixOf]

/-- What `Index` finds is an instance of `substr`: the string is the part in
front of it, `substr`, and the part behind. -/
theorem Index_some (s k : GoString) (j : Nat) (h : Index s k = some j) :
    s = s.take j ++ k ++ s.drop (j + k.length) := by
  induction s generalizing j with
  | nil =>
    rw [Index_nil] at h
    split_ifs at h with hp
    have hk : k = [] := by simpa using List.isPrefixOf_iff_prefix.1 hp
    simp [hk]
  | cons c t ih =>
    rw [Index_cons] at h
    split_ifs at h with hp
    · obtain ⟨r, hr⟩ := List.isPrefixOf_iff_prefix.1 hp
      have hj : j = 0 := by simpa using h.symm
      subst hj
      rw [← hr]
      simp
    · cases hi : Index t k with
      | none => simp [hi] at h
      | some i =>
        have hj : j = i + 1 := by simpa [hi] using h.symm
        subst hj
        have := ih i hi
        rw [show i + 1 + k.length = (i + k.length) + 1 by omega]
        simp only [List.take_succ_cons, List.drop_succ_cons, List.cons_append]
        rw [← this]

theorem Index_none (s k : GoString) (h : ¬ k <:+: s) : Index s k = none := by
  cases hi : Index s k with
  | none => rfl
  | some j =>
    exact absurd ⟨s.take j, s.drop (j + k.length), (Index_some s k j hi).symm⟩ h

theorem Index_none_not_infix (s k : GoString) (h : Index s k = none) : ¬ k <:+: s := by
  induction s with
  | nil =>
    rw [Index_nil] at h
    split_ifs at h with hp
    intro hi
    have hk : k = [] := List.eq_nil_of_infix_nil hi
    exact hp (by simp [hk])
  | cons c t ih =>
    rw [Index_cons] at h
    split_ifs at h with hp
    have ht : Index t k = none := by simpa using h
    intro hi
    rcases List.infix_cons_iff.1 hi with h1 | h1
    · exact hp (List.isPrefixOf_iff_prefix.2 h1)
    · exact ih ht h1

theorem countLoop_fuel (k : GoString) (hk : k ≠ []) (f g : Nat) (s : GoString)
    (hf : s.length ≤ f) (hg : s.length ≤ g) : countLoop k f s = countLoop k g s := by
  have hlen : 0 < k.length := List.length_pos.2 hk
  induction f generalizing g s with
  | zero =>
    have : s = [] := List.length_eq_zero.1 (Nat.le_zero.1 hf)
    subst this
    cases g with
    | zero => rfl
    | succ g => simp [countLoop, Index_nil_of_ne k hk]
  | succ f ih =>
    cases g with
    | zero =>
      have : s = [] := List.length_eq_zero.1 (Nat.le_zero.1 hg)
      subst this
      simp [countLoop, Index_nil_of_ne k hk]
    | succ g =>
      simp only [countLoop]
      cases hi : Index s k with
      | none => rfl
      | some j =>
        simp only
        rw [ih g _ (by rw [List.length_drop]; omega) (by rw [List.length_drop]; omega)]

theorem countLoop_single (b : Nat) (f : Nat) (s : GoString) (hf : s.length ≤ f) :
    countLoop [b] f s = s.count b := by
  induction s generalizing f with
  | nil =>
    cases f with
    | zero => rfl
    | succ f => simp [countLoop, Index_nil_of_ne]
  | cons c t ih =>
    cases f with
    | zero => simp at hf
    | succ f =>
      have hf2 : t.length ≤ f := by simpa using hf
      by_cases hbc : b = c
      · subst hbc
        have hi : Index (b :: t) [b] = some 0 := by simp [Index_cons, List.isPrefixOf]
        simp [countLoop, hi, ih f hf2]
      · have hp : List.isPrefixOf [b] (c :: t) = false := by simp [List.isPrefixOf, hbc]
        have hc : (c :: t).count b = t.count b := by
          rw [List.count_cons]; simp [Ne.symm hbc]
        rw [hc, ← ih (f + 1) (by omega)]
        simp only [countLoop, Index_cons, hp]
        cases hi : Index t [b] with
        | none => simp
        | some j =>
          simp only [Bool.false_eq_true, if_false, Option.map_some']
          rw [show j + 1 + [b].length = (j + [b].length) + 1 by omega, List.drop_succ_cons]

theorem Count_eq_countLoop (s k : GoString) (hk : k ≠ []) :
    Count s k = countLoop k s.length s := by
  match k, hk with
  | [b], _ => simp [Count, countLoop_single]
  | a :: b :: k, _ => simp [Count]

theorem splitScan_skip (k : GoString) (n : Nat) (cur s : GoString) :
    splitScan k n cur s = splitScan k 0 cur (s.drop n) := by
  induction s generalizing n with
  | nil => cases n <;> simp [splitScan]
  | cons c t ih =>
    cases n with
    | zero => rfl
    | succ n => simp [splitScan, ih n]

theorem splitScan_ne_nil (k : GoString) (n : Nat) (cur s : GoString) :
    splitScan k n cur s ≠ [] := by
  induction s generalizing n cur with
  | nil => simp [splitScan]
  | cons c t ih =>
    cases n with
    | zero =>
      simp only [splitScan]
      split_ifs
      · simp
      · exact ih _ _
    | succ n => simpa [splitScan] using ih n cur

/-- The scan ends a piece where `Index` finds the next instance and goes on
behind that instance. -/
theorem splitScan_index (k : GoString) (hk : k ≠ []) (cur s : GoString) :
    splitScan k 0 cur s =
      match Index s k with
      | none => [cur.reverse ++ s]
      | some j => (cur.reverse ++ s.take j) :: splitScan k 0 [] (s.drop (j + k.length)) := by
  have hlen : 0 < k.length := List.length_pos.2 hk
  induction s generalizing cur with
  | nil => simp [splitScan, Index_nil_of_ne k hk]
  | cons c t ih =>
    rw [Index_cons]
    by_cases hp : k.isPrefixOf (c :: t) = true
    · simp only [splitScan, hp, if_true]
      rw [splitScan_skip]
      rw [show 0 + k.length = (k.length - 1) + 1 by omega, List.drop_succ_cons]
      simp
    · have hp2 : k.isPrefixOf (c :: t) = false := Bool.eq_false_iff.2 hp
      simp only [splitScan, hp2, Bool.false_eq_true, if_false]
      rw [ih]
      cases hi : Index t k with
      | none => simp
      | some j =>
        simp only [Option.map_some']
        rw [show j + 1 + k.length = (j + k.length) + 1 by omega]
        simp

/-- The pieces are cut at the leftmost instance of the separator, and the scan
goes on behind that instance: no two instances overlap. -/
theorem pieces_eq (k : GoString) (hk : k ≠ []) (s : GoString) :
    pieces k s =
      match Index s k with
      | none => [s]
      | some j => s.take j :: pieces k (s.drop (j + k.length)) := by
  unfold pieces
  rw [splitScan_index k hk]
  cases Index s k <;> simp

theorem intercalate_cons_of_ne_nil (v p : GoString) (l : List GoString) (hl : l ≠ []) :
    v.intercalate (p :: l) = p ++ v ++ v.intercalate l := by
  cases l with
  | nil => exact absurd rfl hl
  | cons q l => simp [List.intercalate, List.intersperse]

theorem intercalate_singleton (v p : GoString) : v.intercalate [p] = p := by
  simp [List.intercalate, List.intersperse]

/-- The loop of `Replace`, run as often as `Count` says, joins the pieces of
the string with the new value. -/
theorem replaceLoop_pieces (k v : GoString) (hk : k ≠ []) (f : Nat) (s : GoString)
    (hf : s.length ≤ f) (b : Bool) :
    replaceLoop k v (countLoop k f s) b s = v.intercalate (pieces k s) := by
  have hlen : 0 < k.length := List.length_pos.2 hk
  have hlen2 : ¬ k.length = 0 := by omega
  induction f generalizing s b with
  | zero =>
    have : s = [] := List.length_eq_zero.1 (Nat.le_zero.1 hf)
    subst this
    simp [countLoop, replaceLoop, pieces, splitScan, intercalate_singleton]
  | succ f ih =>
    unfold pieces
    rw [splitScan_index k hk]
    simp only [countLoop]
    cases hi : Index s k with
    | none => simp [replaceLoop, intercalate_singleton]
    | some j =>
      simp only [replaceLoop, hlen2, if_false, hi]
      rw [ih _ (by rw [List.length_drop]; omega) false,
        intercalate_cons_of_ne_nil _ _ _ (splitScan_ne_nil _ _ _ _)]
      simp [pieces]

theorem replaceLoop_same (k : GoString) (hk : k ≠ []) (n : Nat) (b : Bool) (s : GoString) :
    replaceLoop k k n b s = s := by
  have hlen2 : ¬ k.length = 0 := fun h => hk (List.length_eq_zero.1 h)
  induction n generalizing s b with
  | zero => rfl
  | succ n ih =>
    simp only [replaceLoop, hlen2, if_false]
    cases hi : Index s k with
    | none => rfl
    | some j =>
      simp only [ih]
      exact (Index_some s k j hi).symm

/-- Joining the pieces of a string with the separator gives the string back. -/
theorem intercalate_pieces (k : GoString) (hk : k ≠ []) (s : GoString) :
    k.intercalate (pieces k s) = s := by
  rw [← replaceLoop_pieces k k hk s.length s (Nat.le_refl _) true, replaceLoop_same k hk]

/-- For a non-empty `old`, `ReplaceAll` joins the pieces of the string split at
`old` with `new`. -/
theorem ReplaceAll_eq_pieces (s k v : GoString) (hk : k ≠ []) :
    ReplaceAll s k v = v.intercalate (pieces k s) := by
  unfold ReplaceAll Replace
  by_cases hkv : k = v
  · subst hkv
    simp [intercalate_pieces k hk]
  · have h1 : ¬ (k = v ∨ (-1 : Int) = 0) := by simp [hkv]
    rw [if_neg h1]
    simp only [Count_eq_countLoop s k hk]
    split_ifs with h0 h2
    · rw [← replaceLoop_pieces k v hk s.length s (Nat.le_refl _) true, h0]
      rfl
    · exact replaceLoop_pieces k v hk s.length s (Nat.le_refl _) true
    · exact absurd (Or.inl (by decide)) h2

theorem splitScan_single_flatten (b : Nat) (cur s : GoString) :
    (splitScan [b] 0 cur s).flatten = cur.reverse ++ s.filter (fun c => decide (c ≠ b)) := by
  induction s generalizing cur with
  | nil => simp [splitScan]
  | cons c t ih =>
    by_cases hbc : b = c
    · subst hbc
      simp [splitScan, List.isPrefixOf, ih]
    · have hcb : ¬ c = b := fun h => hbc h.symm
      simp [splitScan, List.isPrefixOf, ih, hbc, hcb]

theorem intercalate_nil (l : List GoString) : ([] : GoString).intercalate l = l.flatten := by
  induction l with
  | nil => rfl
  | cons p l ih =>
    cases l with
    | nil => simp [List.intercalate, List.intersperse]
    | cons q l =>
      rw [intercalate_cons_of_ne_nil _ _ _ (by simp), ih]
      simp

/-- Replacing a single byte by nothing deletes that byte and keeps the rest. -/
theorem ReplaceAll_single_nil (s : GoString) (b : Nat) :
    ReplaceAll s [b] [] = s.filter (fun c => decide (c ≠ b)) := by
  rw [ReplaceAll_eq_pieces s [b] [] (by simp), intercalate_nil, pieces,
    splitScan_single_flatten]
  simp

/-- A replacement by a value without the byte `c` does not add to the number
of `c` in the string, whatever the positions the loop picks. -/
theorem count_replaceLoop_le (c : Nat) (old new : GoString) (hc : new.count c = 0)
    (n : Nat) (b : Bool) (s : GoString) :
    (replaceLoop old new n b s).count c ≤ s.count c := by
  induction n generalizing s b with
  | zero => exact Nat.le_refl _
  | succ n ih =>
    simp only [replaceLoop]
    split
    · exact Nat.le_refl _
    · rename_i j _
      rw [List.count_append, List.count_append, hc]
      have h1 := ih false (s.drop (j + old.length))
      have h2 : (s.drop (j + old.length)).count c ≤ (s.drop j).count c := by
        rw [← List.drop_drop]
        exact (List.drop_sublist _ _).count_le c
      have h3 : s.count c = (s.take j).count c + (s.drop j).count c := by
        rw [← List.count_append, List.take_append_drop]
      omega

theorem count_ReplaceAll_le (c : Nat) (s old new : GoString) (hc : new.count c = 0) :
    (ReplaceAll s old new).count c ≤ s.count c := by
  unfold ReplaceAll Replace
  simp only []
  split_ifs <;> first
    | exact Nat.le_refl _
    | exact count_replaceLoop_le c old new hc _ _ _

/-- Where `old` does not occur in the string, `ReplaceAll` returns the string. -/
theorem ReplaceAll_of_not_infix (s old new : GoString) (h : ¬ old <:+: s) :
    ReplaceAll s old new = s := by
  have hk : old ≠ [] := by
    rintro rfl
    exact h List.nil_infix
  have h0 : Count s old = 0 := by
    rw [Count_eq_countLoop s old hk]
    cases hl : s.length with
    | zero => rfl
    | succ n => simp [countLoop, Index_none s old h]
  unfold ReplaceAll Replace
  simp [h0]

/-! ### main.go -/

theorem apostrophe_bytes : utf8Bytes "\x27" = [apostrophe] := by decide

/-- A fetch that succeeds: the content type is the accepted one and the body is
read; `getSVG` returns the body, without its apostrophes when asked. -/
theorem getSVG_ok (w : World) (url d : GoString) (removeHyphens : Bool)
    (h : w.get url = .ok ⟨acceptedContentType, .ok d⟩) :
    getSVG w url removeHyphens =
      ((if removeHyphens then d.filter (fun c => decide (c ≠ apostrophe)) else d, none),
        { w with fetched := w.fetched ++ [url] }) := by
  simp only [getSVG, httpGet, h, ne_eq, not_true_eq_false, if_false, apostrophe_bytes,
    ReplaceAll_single_nil]

/-- What `getSVG` returns without an error is a fetched body, without its
apostrophes when asked. -/
theorem getSVG_none (w w1 : World) (url s : GoString) (removeHyphens : Bool)
    (h : getSVG w url removeHyphens = ((s, none), w1)) :
    ∃ d, w.get url = .ok ⟨acceptedContentType, .ok d⟩ ∧
      s = if removeHyphens then d.filter (fun c => decide (c ≠ apostrophe)) else d := by
  cases hg : w.get url with
  | error e => simp [getSVG, httpGet, hg] at h
  | ok resp =>
    obtain ⟨ctype, body⟩ := resp
    by_cases hc : ctype = acceptedContentType
    · subst hc
      cases body with
      | error e => simp [getSVG, httpGet, hg] at h
      | ok d =>
        rw [getSVG_ok w url d removeHyphens hg] at h
        exact ⟨d, rfl, (congrArg (fun x => x.1.1) h).symm⟩
    · simp [getSVG, httpGet, hg, hc] at h

theorem applyReplace_cons (kv : GoString × GoString) (es : List (GoString × GoString))
    (s : GoString) :
    applyReplace (kv :: es) s =
      applyReplace es
        (if MatchString validateInput kv.2 then ReplaceAll s kv.1 kv.2 else s) := rfl

theorem applyReplace_filter (es : List (GoString × GoString)) (s : GoString) :
    applyReplace (es.filter (fun kv => MatchString validateInput kv.2)) s = applyReplace es s := by
  induction es generalizing s with
  | nil => rfl
  | cons kv es ih =>
    by_cases h : MatchString validateInput kv.2 = true
    · simp only [List.filter_cons, h, if_true, applyReplace_cons, ih]
    · simp only [List.filter_cons, h, if_false, applyReplace_cons, ih, Bool.false_eq_true]

theorem applyReplace_rejected (es : List (GoString × GoString)) (s : GoString)
    (h : ∀ kv ∈ es, MatchString validateInput kv.2 = false) : applyReplace es s = s := by
  induction es generalizing s with
  | nil => rfl
  | cons kv es ih =>
    rw [applyReplace_cons, h kv (List.mem_cons_self _ _)]
    exact ih s (fun x hx => h x (List.mem_cons_of_mem _ hx))

theorem count_applyReplace_le (c : Nat) (hc : c ∈ [0x3C, 0x3E, 0x22, 0x27, 0x20, 0x0A])
    (es : List (GoString × GoString)) (s : GoString) :
    (applyReplace es s).count c ≤ s.count c := by
  induction es generalizing s with
  | nil => exact Nat.le_refl _
  | cons kv es ih =>
    rw [applyReplace_cons]
    refine Nat.le_trans (ih _) ?_
    split_ifs with h
    · exact count_ReplaceAll_le c s kv.1 kv.2
        (List.count_eq_zero.2 (matchString_not_mem kv.2 h c hc))
    · exact Nat.le_refl _

theorem applyReplace_absent (es : List (GoString × GoString)) (s : GoString)
    (h : ∀ kv ∈ es, ¬ kv.1 <:+: s) : applyReplace es s = s := by
  induction es with
  | nil => rfl
  | cons kv es ih =>
    rw [applyReplace_cons, ReplaceAll_of_not_infix s kv.1 kv.2 (h kv (List.mem_cons_self _ _)),
      ite_self]
    exact ih (fun x hx => h x (List.mem_cons_of_mem _ hx))

/-- The response to a request that parses and whose fetch succeeds. -/
theorem renderSvg_ok (unmarshal : GoString → Except GoError Payload) (w : World)
    (jsonData : GoString) (p : Payload) (d : GoString)
    (hparse : unmarshal jsonData = .ok p)
    (hfetch : w.get p.Source = .ok ⟨acceptedContentType, .ok d⟩) :
    renderSvg unmarshal w ⟨.ok jsonData⟩ =
      (⟨StatusOK, responseContentType,
          applyReplace p.Replace
            (if p.RemoveHyphens then d.filter (fun c => decide (c ≠ apostrophe)) else d)⟩,
        { w with fetched := w.fetched ++ [p.Source] }) := by
  simp only [renderSvg, hparse, getSVG_ok w p.Source d p.RemoveHyphens hfetch]

/-! ### The claims -/

/-- C1: for every successfully fetched document `d`, every non-empty
placeholder `k` and every value `v` that matches the whitelist pattern,
`renderSvg` with the single entry `k: v` in `replace` responds with status 200,
content type `text/html; charset=utf-8` and the pieces of `d'` split at `k`
joined by `v`, where `d'` is `d` without its apostrophes when `removehyphens`
is true and `d` otherwise. -/
theorem renderSvg_replaces_placeholder (unmarshal : GoString → Except GoError Payload)
    (w : World) (jsonData : GoString) (p : Payload) (d k v : GoString)
    (hparse : unmarshal jsonData = .ok p)
    (hfetch : w.get p.Source = .ok ⟨utf8Bytes "image/svg+xml", .ok d⟩)
    (hrep : p.Replace = [(k, v)]) (hk : k ≠ [])
    (hv : MatchString validateInput v = true) :
    (renderSvg unmarshal w ⟨.ok jsonData⟩).1 =
      ⟨200, utf8Bytes "text/html; charset=utf-8",
        v.intercalate
          (pieces k (if p.RemoveHyphens then d.filter (fun c => decide (c ≠ apostrophe)) else d))⟩ ∧
    k.intercalate
        (pieces k (if p.RemoveHyphens then d.filter (fun c => decide (c ≠ apostrophe)) else d)) =
      (if p.RemoveHyphens then d.filter (fun c => decide (c ≠ apostrophe)) else d) := by
  refine ⟨?_, intercalate_pieces k hk _⟩
  rw [renderSvg_ok unmarshal w jsonData p d hparse hfetch, hrep, applyReplace_cons]
  simp only [hv, if_true]
  rw [ReplaceAll_eq_pieces _ k v hk]
  rfl

/-- The end-to-end scenario of C1: the document `<svg>'Hello' #NAME#</svg>`
with `removehyphens=true` and `#NAME#` replaced by `World` gives
`<svg>Hello World</svg>`. -/
theorem renderSvg_replaces_placeholder_witness :
    utf8Bytes "#NAME#" ≠ [] ∧ MatchString validateInput (utf8Bytes "World") = true ∧
    (renderSvg
        (yielding ⟨utf8Bytes "http://svg.example/hello.svg", true,
          [(utf8Bytes "#NAME#", utf8Bytes "World")]⟩)
        (serving (utf8Bytes "image/svg+xml") helloDoc) ⟨.ok []⟩).1 =
      ⟨200, utf8Bytes "text/html; charset=utf-8", utf8Bytes "<svg>Hello World</svg>"⟩ :=
  ⟨by decide, by decide,
    (renderSvg_replaces_placeholder _ _ [] _ helloDoc (utf8Bytes "#NAME#") (utf8Bytes "World")
      rfl rfl rfl (by decide) (by decide)).1.trans (by decide)⟩

/-- C2: entries of `replace` whose value does not match the whitelist are
skipped: for every fetched document and every list of entries, in the order
the loop visits them, the response has status 200 and the body produced for
the entries that match, taken in the same order; when no value matches, the
body is the fetched document after the optional removal of apostrophes. -/
theorem renderSvg_skips_rejected (unmarshal : GoString → Except GoError Payload)
    (w : World) (jsonData jsonData2 : GoString) (p : Payload) (d : GoString)
    (hparse : unmarshal jsonData = .ok p)
    (hparse2 : unmarshal jsonData2 =
      .ok { p with Replace := p.Replace.filter (fun kv => MatchString validateInput kv.2) })
    (hfetch : w.get p.Source = .ok ⟨utf8Bytes "image/svg+xml", .ok d⟩) :
    (renderSvg unmarshal w ⟨.ok jsonData⟩).1.status = 200 ∧
    (renderSvg unmarshal w ⟨.ok jsonData⟩).1.body =
      (renderSvg unmarshal w ⟨.ok jsonData2⟩).1.body ∧
    ((∀ kv ∈ p.Replace, MatchString validateInput kv.2 = false) →
      (renderSvg unmarshal w ⟨.ok jsonData⟩).1.body =
        if p.RemoveHyphens then d.filter (fun c => decide (c ≠ apostrophe)) else d) := by
  have h2 := renderSvg_ok unmarshal w jsonData2 _ d hparse2 hfetch
  rw [renderSvg_ok unmarshal w jsonData p d hparse hfetch, h2]
  refine ⟨rfl, ?_, ?_⟩
  · exact (applyReplace_filter _ _).symm
  · intro h
    exact applyReplace_rejected _ _ h

/-- The end-to-end scenario of C2: the value `<script>` fails the whitelist and
the placeholder `#NAME#` stays in the output. -/
theorem renderSvg_skips_rejected_witness :
    MatchString validateInput (utf8Bytes "<script>") = false ∧
    (renderSvg
        (fun jsonData =>
          if jsonData = [] then
            .ok ⟨utf8Bytes "http://svg.example/hello.svg", false,
              [(utf8Bytes "#NAME#", utf8Bytes "<script>")]⟩
          else .ok ⟨utf8Bytes "http://svg.example/hello.svg", false, []⟩)
        (serving (utf8Bytes "image/svg+xml") helloDoc) ⟨.ok []⟩).1.body = helloDoc ∧
    Index helloDoc (utf8Bytes "#NAME#") = some 13 :=
  ⟨by decide,
    (renderSvg_skips_rejected
      (fun jsonData =>
        if jsonData = [] then
          .ok ⟨utf8Bytes "http://svg.example/hello.svg", false,
            [(utf8Bytes "#NAME#", utf8Bytes "<script>")]⟩
        else .ok ⟨utf8Bytes "http://svg.example/hello.svg", false, []⟩)
      (serving (utf8Bytes "image/svg+xml") helloDoc) [] (utf8Bytes "\x7b\x7d") _ helloDoc rfl
      rfl rfl).2.2 (by decide),
    by decide⟩

/-- C3: when `removehyphens` is true, the body of every response with
status 200 holds no apostrophe, neither among its bytes nor among its runes,
for every fetched document and every list of entries of `replace`, empty keys
and rejected values included, in every order. -/
theorem renderSvg_no_apostrophe (unmarshal : GoString → Except GoError Payload)
    (w : World) (jsonData : GoString) (p : Payload)
    (hparse : unmarshal jsonData = .ok p) (hflag : p.RemoveHyphens = true)
    (hok : (renderSvg unmarshal w ⟨.ok jsonData⟩).1.status = 200) :
    apostrophe ∉ (renderSvg unmarshal w ⟨.ok jsonData⟩).1.body ∧
    apostrophe ∉ runes (renderSvg unmarshal w ⟨.ok jsonData⟩).1.body := by
  rw [mem_runes_ascii apostrophe (by decide), and_self]
  rcases hg : getSVG w p.Source p.RemoveHyphens with ⟨⟨s, err⟩, w1⟩
  cases err with
  | some e => simp [renderSvg, hparse, hg, StatusNotFound] at hok
  | none =>
    simp only [renderSvg, hparse, hg]
    obtain ⟨d, -, hs⟩ := getSVG_none w w1 p.Source s p.RemoveHyphens hg
    rw [hflag, if_pos rfl] at hs
    have h0 : s.count apostrophe = 0 := by
      rw [hs, List.count_eq_zero]
      simp [List.mem_filter]
    have h1 := count_applyReplace_le apostrophe (by simp [apostrophe]) p.Replace s
    exact List.count_eq_zero.1 (by omega)

/-- An instance of C3: an entry with an empty key and an entry with a rejected
value, on the document of the end-to-end scenarios. -/
theorem renderSvg_no_apostrophe_witness :
    apostrophe ∈ helloDoc ∧
    apostrophe ∉
      (renderSvg
        (yielding ⟨utf8Bytes "http://svg.example/hello.svg", true,
          [([], utf8Bytes "-"), (utf8Bytes "#NAME#", utf8Bytes "\x27")]⟩)
        (serving (utf8Bytes "image/svg+xml") helloDoc) ⟨.ok []⟩).1.body :=
  ⟨by decide,
    (renderSvg_no_apostrophe
      (yielding ⟨utf8Bytes "http://svg.example/hello.svg", true,
          [([], utf8Bytes "-"), (utf8Bytes "#NAME#", utf8Bytes "\x27")]⟩)
      (serving (utf8Bytes "image/svg+xml") helloDoc) [] _ rfl rfl (by decide)).1⟩

/-- C4, as amended: `validateInput.MatchString(v)` accepts `v` if and only if
every character of `v` is an ASCII letter, a digit, or one of the seven symbols
degree sign, percent, period, comma, hyphen, underscore, hash; the empty string
is accepted, and every value holding `<`, `>`, a double quote, an apostrophe,
a space or a newline, among its bytes or among its runes, a single trailing
newline included, is rejected. -/
theorem validateInput_accepts_iff (v : GoString) :
    (MatchString validateInput v = true ↔
      ∀ r ∈ runes v, isAsciiLetter r ∨ isAsciiDigit r ∨ r ∈ listedSymbols) ∧
    (∀ s : String, MatchString validateInput (utf8Bytes s) = true ↔
      ∀ c ∈ s.toList, isAsciiLetter c.toNat ∨ isAsciiDigit c.toNat ∨ c.toNat ∈ listedSymbols) ∧
    listedSymbols = "°%.,-_#".toList.map Char.toNat ∧ listedSymbols.length = 7 ∧
    MatchString validateInput [] = true ∧
    (∀ b ∈ "<>\"\x27 \n".toList.map Char.toNat, b ∈ v ∨ b ∈ runes v →
      MatchString validateInput v = false) ∧
    MatchString validateInput (v ++ utf8Bytes "\n") = false := by
  refine ⟨matchString_iff v, fun s => ?_, by decide, by decide, by decide, ?_, ?_⟩
  · rw [matchString_iff, runes_utf8Bytes]
    simp only [List.mem_map, forall_exists_index, and_imp, forall_apply_eq_imp_iff₂]
  · intro b hb hv
    by_contra h
    have hl : "<>\"\x27 \n".toList.map Char.toNat = [0x3C, 0x3E, 0x22, 0x27, 0x20, 0x0A] := by
      decide
    have hb2 : b ∈ [0x3C, 0x3E, 0x22, 0x27, 0x20, 0x0A] := hl ▸ hb
    have hb3 : b < 0x80 := by
      simp only [List.mem_cons, List.mem_singleton, List.not_mem_nil, or_false] at hb2
      omega
    rw [mem_runes_ascii b hb3, or_self] at hv
    exact matchString_not_mem v (by simpa using h) b hb2 hv
  · by_contra h
    exact matchString_not_mem _ (by simpa using h) 0x0A (by decide)
      (List.mem_append_right _ (by decide))

/-- Instances of C4: a value of letters, digits and listed symbols is accepted,
a value with a space is rejected. -/
theorem validateInput_accepts_iff_witness :
    MatchString validateInput (utf8Bytes "Temp_25.5°C,#1-a%") = true ∧
    MatchString validateInput (utf8Bytes "a b") = false :=
  ⟨((validateInput_accepts_iff []).2.1 "Temp_25.5°C,#1-a%").2 (by decide),
    (validateInput_accepts_iff (utf8Bytes "a b")).2.2.2.2.2.1 0x20 (by decide)
      (Or.inl (by decide))⟩

/-- C4, the count of the claim refuted: the symbols the whitelist admits besides
letters and digits, each of them a character that is accepted as a value of
its own, are exactly the seven listed ones, and no list of nine distinct
symbols holds exactly the symbols admitted. -/
theorem whitelist_symbols_not_nine :
    (∀ r, (¬ isAsciiLetter r ∧ ¬ isAsciiDigit r ∧
        ∃ v, runes v = [r] ∧ MatchString validateInput v = true) ↔ r ∈ listedSymbols) ∧
    listedSymbols.Nodup ∧ listedSymbols.length = 7 ∧
    ¬ ∃ l : List Nat, l.Nodup ∧ l.length = 9 ∧
      ∀ r, r ∈ l ↔ (¬ isAsciiLetter r ∧ ¬ isAsciiDigit r ∧
        ∃ v, runes v = [r] ∧ MatchString validateInput v = true) := by
  have h1 : ∀ r, (¬ isAsciiLetter r ∧ ¬ isAsciiDigit r ∧
        ∃ v, runes v = [r] ∧ MatchString validateInput v = true) ↔ r ∈ listedSymbols := by
    intro r
    constructor
    · rintro ⟨hl, hd, v, hv, hm⟩
      have h := (matchString_iff v).1 hm r (by rw [hv]; exact List.mem_singleton_self r)
      tauto
    · intro hr
      have hr2 : r = 0xB0 ∨ r = 0x25 ∨ r = 0x2E ∨ r = 0x2C ∨ r = 0x2D ∨ r = 0x5F ∨ r = 0x23 := by
        simpa [listedSymbols] using hr
      refine ⟨?_, ?_, EncodeRune r, ?_⟩
      · unfold isAsciiLetter; omega
      · unfold isAsciiDigit; omega
      · rcases hr2 with rfl | rfl | rfl | rfl | rfl | rfl | rfl <;> decide
  refine ⟨h1, by decide, by decide, ?_⟩
  rintro ⟨l, hnd, hlen, hl⟩
  have hperm : l.Perm listedSymbols :=
    (List.perm_ext_iff_of_nodup hnd (by decide)).2 (fun r => (hl r).trans (h1 r))
  have := hperm.length_eq
  rw [hlen] at this
  revert this
  decide

/-- C5: the error responses of `renderSvg` are fixed.  A request body that
cannot be read or does not parse gets status 404 and the body
`Invalid request body`, and the network is left as it was; a payload whose
fetch fails, by a network error, a content type other than `image/svg+xml` or
a body that cannot be read, gets status 404 and the body
`Error retrieving source`, whatever the error; every other request gets
status 200. -/
theorem renderSvg_error_responses (unmarshal : GoString → Except GoError Payload) (w : World) :
    (∀ err, renderSvg unmarshal w ⟨.error err⟩ =
      (⟨404, utf8Bytes "text/html; charset=utf-8", utf8Bytes "Invalid request body"⟩, w)) ∧
    (∀ jsonData err, unmarshal jsonData = .error err →
      renderSvg unmarshal w ⟨.ok jsonData⟩ =
        (⟨404, utf8Bytes "text/html; charset=utf-8", utf8Bytes "Invalid request body"⟩, w)) ∧
    (∀ jsonData p, unmarshal jsonData = .ok p →
      (∀ err, w.get p.Source = .error err →
        (renderSvg unmarshal w ⟨.ok jsonData⟩).1 =
          ⟨404, utf8Bytes "text/html; charset=utf-8", utf8Bytes "Error retrieving source"⟩) ∧
      (∀ ctype body, w.get p.Source = .ok ⟨ctype, body⟩ → ctype ≠ utf8Bytes "image/svg+xml" →
        (renderSvg unmarshal w ⟨.ok jsonData⟩).1 =
          ⟨404, utf8Bytes "text/html; charset=utf-8", utf8Bytes "Error retrieving source"⟩) ∧
      (∀ err, w.get p.Source = .ok ⟨utf8Bytes "image/svg+xml", .error err⟩ →
        (renderSvg unmarshal w ⟨.ok jsonData⟩).1 =
          ⟨404, utf8Bytes "text/html; charset=utf-8", utf8Bytes "Error retrieving source"⟩) ∧
      (∀ d, w.get p.Source = .ok ⟨utf8Bytes "image/svg+xml", .ok d⟩ →
        (renderSvg unmarshal w ⟨.ok jsonData⟩).1.status = 200)) := by
  refine ⟨fun err => rfl, fun jsonData err h => ?_, fun jsonData p hp => ⟨?_, ?_, ?_, ?_⟩⟩
  · simp only [renderSvg, h]
    rfl
  · intro err h
    simp only [renderSvg, hp, getSVG, httpGet, h]
    rfl
  · intro ctype body h hc
    have hc2 : ctype ≠ acceptedContentType := hc
    simp only [renderSvg, hp, getSVG, httpGet, h, hc2, ne_eq, not_false_eq_true, if_true]
    rfl
  · intro err h
    have h2 : w.get p.Source = .ok ⟨acceptedContentType, .error err⟩ := h
    simp only [renderSvg, hp, getSVG, httpGet, h2, ne_eq, not_true_eq_false, if_false]
    rfl
  · intro d h
    rw [renderSvg_ok unmarshal w jsonData p d hp h]
    rfl

/-- Instances of C5: a body that does not parse, with no request recorded, and
the three ways a fetch fails, one of them the content type `image/png`. -/
theorem renderSvg_error_responses_witness :
    renderSvg rejecting (serving (utf8Bytes "image/svg+xml") helloDoc) ⟨.ok (utf8Bytes "\x7b")⟩ =
      (⟨404, utf8Bytes "text/html; charset=utf-8", utf8Bytes "Invalid request body"⟩,
        serving (utf8Bytes "image/svg+xml") helloDoc) ∧
    (renderSvg (yielding ⟨utf8Bytes "http://svg.example/hello.svg", true, []⟩) unreachable
        ⟨.ok []⟩).1 =
      ⟨404, utf8Bytes "text/html; charset=utf-8", utf8Bytes "Error retrieving source"⟩ ∧
    (renderSvg (yielding ⟨utf8Bytes "http://svg.example/hello.svg", true, []⟩)
        (serving (utf8Bytes "image/png") helloDoc) ⟨.ok []⟩).1 =
      ⟨404, utf8Bytes "text/html; charset=utf-8", utf8Bytes "Error retrieving source"⟩ ∧
    (renderSvg (yielding ⟨utf8Bytes "http://svg.example/hello.svg", true, []⟩) truncating
        ⟨.ok []⟩).1 =
      ⟨404, utf8Bytes "text/html; charset=utf-8", utf8Bytes "Error retrieving source"⟩ :=
  ⟨(renderSvg_error_responses rejecting _).2.1 _ _ rfl,
    ((renderSvg_error_responses (yielding _) unreachable).2.2 [] _ rfl).1 _ rfl,
    ((renderSvg_error_responses (yielding _) (serving (utf8Bytes "image/png") helloDoc)).2.2 []
      _ rfl).2.1 _ _ rfl (by decide),
    ((renderSvg_error_responses (yielding _) truncating).2.2 [] _ rfl).2.2.1 _ rfl⟩

/-- C6: the content-type gate.  When `http.Get` succeeds, `getSVG` returns an
error and the empty string for every value of the `Content-Type` header other
than `image/svg+xml`, among them the value with a charset suffix, the value in
capitals, the empty value of an absent header and `image/png`; when the header
is `image/svg+xml` and the body is read, it returns no error. -/
theorem getSVG_content_type_gate (w : World) (url : GoString) (removeHyphens : Bool)
    (ctype : GoString) (body : Except GoError GoString)
    (hget : w.get url = .ok ⟨ctype, body⟩) :
    (ctype ≠ utf8Bytes "image/svg+xml" →
      (getSVG w url removeHyphens).1 = ([], some ⟨utf8Bytes "Invalid Content-type"⟩)) ∧
    (ctype ∈ [utf8Bytes "image/svg+xml; charset=utf-8", utf8Bytes "IMAGE/SVG+XML", [],
        utf8Bytes "image/png"] →
      (getSVG w url removeHyphens).1 = ([], some ⟨utf8Bytes "Invalid Content-type"⟩)) ∧
    (ctype = utf8Bytes "image/svg+xml" → ∀ d, body = .ok d →
      (getSVG w url removeHyphens).1.2 = none) := by
  have key : ctype ≠ utf8Bytes "image/svg+xml" →
      (getSVG w url removeHyphens).1 = ([], some ⟨utf8Bytes "Invalid Content-type"⟩) := by
    intro hc
    have hc2 : ctype ≠ acceptedContentType := hc
    simp only [getSVG, httpGet, hget, hc2, ne_eq, not_false_eq_true, if_true]
  refine ⟨key, ?_, ?_⟩
  · intro hmem
    apply key
    rintro rfl
    revert hmem
    decide
  · rintro rfl d rfl
    rw [getSVG_ok w url d removeHyphens hget]

/-- Instances of C6: the header with a charset suffix is refused and nothing of
the body is returned; the exact header is admitted. -/
theorem getSVG_content_type_gate_witness :
    (getSVG (serving (utf8Bytes "image/svg+xml; charset=utf-8") helloDoc)
        (utf8Bytes "http://svg.example/hello.svg") false).1 =
      ([], some ⟨utf8Bytes "Invalid Content-type"⟩) ∧
    (getSVG (serving (utf8Bytes "image/svg+xml") helloDoc)
        (utf8Bytes "http://svg.example/hello.svg") false).1.2 = none :=
  ⟨(getSVG_content_type_gate (serving (utf8Bytes "image/svg+xml; charset=utf-8") helloDoc)
      (utf8Bytes "http://svg.example/hello.svg") false _ _ rfl).1 (by decide),
    (getSVG_content_type_gate (serving (utf8Bytes "image/svg+xml") helloDoc)
      (utf8Bytes "http://svg.example/hello.svg") false _ _ rfl).2.2 rfl helloDoc rfl⟩

/-- C7: on a successful fetch, `getSVG` with `removeHyphens` true returns the
body filtered by "the character is not an apostrophe", every other character,
hyphens included, kept in order; with `removeHyphens` false it returns the body
unchanged, and a request with `removehyphens` false and no entry in `replace`
is answered with the fetched body. -/
theorem getSVG_removes_apostrophes (w : World) (url d : GoString)
    (hget : w.get url = .ok ⟨utf8Bytes "image/svg+xml", .ok d⟩) :
    (getSVG w url true).1 = (d.filter (fun c => decide (c ≠ apostrophe)), none) ∧
    (getSVG w url false).1 = (d, none) ∧
    (∀ (unmarshal : GoString → Except GoError Payload) (jsonData : GoString) (p : Payload),
      unmarshal jsonData = .ok p → p.Source = url → p.RemoveHyphens = false → p.Replace = [] →
      (renderSvg unmarshal w ⟨.ok jsonData⟩).1 =
        ⟨200, utf8Bytes "text/html; charset=utf-8", d⟩) := by
  refine ⟨?_, ?_, ?_⟩
  · rw [getSVG_ok w url d true hget]
    rfl
  · rw [getSVG_ok w url d false hget]
    rfl
  · rintro unmarshal jsonData p hp rfl hflag hrep
    rw [renderSvg_ok unmarshal w jsonData p d hp hget, hflag, hrep]
    rfl

/-- Instances of C7: the apostrophes of the document go, its hyphen stays. -/
theorem getSVG_removes_apostrophes_witness :
    (getSVG (serving (utf8Bytes "image/svg+xml") (utf8Bytes "<g id=\x27a-b\x27/>"))
        (utf8Bytes "http://svg.example/g.svg") true).1 = (utf8Bytes "<g id=a-b/>", none) ∧
    (renderSvg (yielding ⟨utf8Bytes "http://svg.example/g.svg", false, []⟩)
        (serving (utf8Bytes "image/svg+xml") (utf8Bytes "<g id=\x27a-b\x27/>")) ⟨.ok []⟩).1.body =
      utf8Bytes "<g id=\x27a-b\x27/>" :=
  ⟨(getSVG_removes_apostrophes (serving (utf8Bytes "image/svg+xml")
        (utf8Bytes "<g id=\x27a-b\x27/>")) (utf8Bytes "http://svg.example/g.svg") _ rfl).1.trans
      (by decide),
    congrArg Response.body
      ((getSVG_removes_apostrophes (serving (utf8Bytes "image/svg+xml")
        (utf8Bytes "<g id=\x27a-b\x27/>")) (utf8Bytes "http://svg.example/g.svg") _ rfl).2.2
        (yielding ⟨utf8Bytes "http://svg.example/g.svg", false, []⟩) [] _ rfl rfl rfl rfl)⟩

/-- C8: for every document and every list of entries whose values all match the
whitelist, if no key occurs in the document as a literal substring, then the
substitutions, applied in any order, return the document unchanged. -/
theorem applyReplace_idempotent (d : GoString) (entries order : List (GoString × GoString))
    (hperm : order.Perm entries)
    (_hvalid : ∀ kv ∈ entries, MatchString validateInput kv.2 = true)
    (habsent : ∀ kv ∈ entries, ¬ kv.1 <:+: d) :
    applyReplace order d = d :=
  applyReplace_absent order d (fun kv hkv => habsent kv (hperm.subset hkv))

/-- An instance of C8: the output of the first end-to-end scenario, in which
the placeholder is gone, is left as it is. -/
theorem applyReplace_idempotent_witness :
    applyReplace [(utf8Bytes "#NAME#", utf8Bytes "World"), (utf8Bytes "#AGE#", utf8Bytes "42")]
        (utf8Bytes "<svg>Hello World</svg>") = utf8Bytes "<svg>Hello World</svg>" :=
  applyReplace_idempotent (utf8Bytes "<svg>Hello World</svg>")
    [(utf8Bytes "#AGE#", utf8Bytes "42"), (utf8Bytes "#NAME#", utf8Bytes "World")]
    [(utf8Bytes "#NAME#", utf8Bytes "World"), (utf8Bytes "#AGE#", utf8Bytes "42")]
    (List.Perm.swap _ _ _)
    (by decide)
    (by
      intro kv hkv
      apply Index_none_not_infix
      revert kv
      decide)

/-- C9: the substitution loop depends on the order of the entries: for the
document `A` and the entries `A: B` and `B: C`, whose values match the
whitelist and where the value of the first holds the key of the second, the
two orders of iteration give the response bodies `C` and `B`. -/
theorem renderSvg_order_dependent :
    MatchString validateInput (utf8Bytes "B") = true ∧
    MatchString validateInput (utf8Bytes "C") = true ∧
    utf8Bytes "B" <:+: utf8Bytes "B" ∧
    [(utf8Bytes "A", utf8Bytes "B"), (utf8Bytes "B", utf8Bytes "C")].Perm
      [(utf8Bytes "B", utf8Bytes "C"), (utf8Bytes "A", utf8Bytes "B")] ∧
    (renderSvg (yielding ⟨utf8Bytes "http://svg.example/a.svg", false,
          [(utf8Bytes "A", utf8Bytes "B"), (utf8Bytes "B", utf8Bytes "C")]⟩)
        (serving (utf8Bytes "image/svg+xml") (utf8Bytes "A")) ⟨.ok []⟩).1 =
      ⟨200, utf8Bytes "text/html; charset=utf-8", utf8Bytes "C"⟩ ∧
    (renderSvg (yielding ⟨utf8Bytes "http://svg.example/a.svg", false,
          [(utf8Bytes "B", utf8Bytes "C"), (utf8Bytes "A", utf8Bytes "B")]⟩)
        (serving (utf8Bytes "image/svg+xml") (utf8Bytes "A")) ⟨.ok []⟩).1 =
      ⟨200, utf8Bytes "text/html; charset=utf-8", utf8Bytes "B"⟩ ∧
    (renderSvg (yielding ⟨utf8Bytes "http://svg.example/a.svg", false,
          [(utf8Bytes "A", utf8Bytes "B"), (utf8Bytes "B", utf8Bytes "C")]⟩)
        (serving (utf8Bytes "image/svg+xml") (utf8Bytes "A")) ⟨.ok []⟩).1.body ≠
      (renderSvg (yielding ⟨utf8Bytes "http://svg.example/a.svg", false,
          [(utf8Bytes "B", utf8Bytes "C"), (utf8Bytes "A", utf8Bytes "B")]⟩)
        (serving (utf8Bytes "image/svg+xml") (utf8Bytes "A")) ⟨.ok []⟩).1.body :=
  ⟨by decide, by decide, List.infix_refl _, List.Perm.swap _ _ _, by decide, by decide,
    by decide⟩

/-- C10: substitution cannot inject markup characters: for every fetched
document, either value of `removehyphens` and every list of entries of
`replace`, empty keys included, in every order, each of `<`, `>`, double quote
and apostrophe occurs in the response body at most as often as in the fetched
document, counted among the bytes and counted among the runes. -/
theorem renderSvg_no_injection (unmarshal : GoString → Except GoError Payload)
    (w : World) (jsonData : GoString) (p : Payload) (d : GoString)
    (hparse : unmarshal jsonData = .ok p)
    (hfetch : w.get p.Source = .ok ⟨utf8Bytes "image/svg+xml", .ok d⟩) (c : Nat)
    (hc : c ∈ "<>\"\x27".toList.map Char.toNat) :
    (renderSvg unmarshal w ⟨.ok jsonData⟩).1.body.count c ≤ d.count c ∧
    (runes (renderSvg unmarshal w ⟨.ok jsonData⟩).1.body).count c ≤ (runes d).count c := by
  have hl : "<>\"\x27".toList.map Char.toNat = [0x3C, 0x3E, 0x22, 0x27] := by decide
  rw [hl] at hc
  have hc3 : c < 0x80 := by
    simp only [List.mem_cons, List.mem_singleton, List.not_mem_nil, or_false] at hc
    omega
  rw [runes_count_ascii c hc3, runes_count_ascii c hc3, and_self,
    renderSvg_ok unmarshal w jsonData p d hparse hfetch]
  have hc2 : c ∈ [0x3C, 0x3E, 0x22, 0x27, 0x20, 0x0A] := by
    simp only [List.mem_cons, List.mem_singleton, List.not_mem_nil, or_false] at hc ⊢
    tauto
  refine Nat.le_trans (count_applyReplace_le c hc2 p.Replace _) ?_
  split_ifs
  · exact (List.filter_sublist d).count_le c
  · exact Nat.le_refl _

/-- An instance of C10: an empty key and a value rejected for its markup leave
the count of `<` at that of the document. -/
theorem renderSvg_no_injection_witness :
    (renderSvg
        (yielding ⟨utf8Bytes "http://svg.example/hello.svg", false,
          [([], utf8Bytes "_"), (utf8Bytes "#NAME#", utf8Bytes "<script>")]⟩)
        (serving (utf8Bytes "image/svg+xml") helloDoc) ⟨.ok []⟩).1.body.count 0x3C ≤
      helloDoc.count 0x3C ∧ helloDoc.count 0x3C = 2 :=
  ⟨(renderSvg_no_injection
      (yielding ⟨utf8Bytes "http://svg.example/hello.svg", false,
          [([], utf8Bytes "_"), (utf8Bytes "#NAME#", utf8Bytes "<script>")]⟩)
      (serving (utf8Bytes "image/svg+xml") helloDoc) [] _ helloDoc rfl rfl 0x3C (by decide)).1,
    by decide⟩

end GoSvgReplace
